import Mathlib

/-
  Verification of the Scope-Shield bot (src/index.js): a webhook-driven relay
  between a chat platform and an assistant backend, keeping one conversation
  thread per (chatId, userId) pair in a JSON-file-backed map.

  Shallow embedding conventions:
  - JS strings are modelled as `List Char`.
  - The external collaborators (assistant backend, chat transport, file
    system) are modelled by an `ExtCalls` record of call results supplied by the
    environment; every outbound call is recorded as an `Effect`.
  - A JS async handler that terminates normally acknowledges the webhook
    (`Outcome.ok200`); an uncaught rejection sends no response
    (`Outcome.crash`).
  - JS number-to-string conversion (template literals) is modelled by
    `intDec` (decimal rendering); `undefined` interpolates as "undefined".
-/

/-! ## JS string primitives (trim / includes / replace) -/

/-- Whitespace recognizer for the JS `String.prototype.trim` model. -/
def isWS (c : Char) : Bool :=
  c == ' ' || c == '\t' || c == '\n' || c == '\r' || c == '\x0b' || c == '\x0c'

/-- Left part of JS `trim`: drop leading whitespace. -/
def ltrimCL (s : List Char) : List Char := s.dropWhile isWS

/-- Right part of JS `trim`: drop trailing whitespace. -/
def rtrimCL (s : List Char) : List Char := (s.reverse.dropWhile isWS).reverse

/-- Model of JS `s.trim()`. -/
def jsTrim (s : List Char) : List Char := rtrimCL (ltrimCL s)

/-- Boolean substring-at-the-start test. -/
def isPrefOf : List Char → List Char → Bool
  | [], _ => true
  | _ :: _, [] => false
  | a :: as, b :: bs => a == b && isPrefOf as bs

/-- Model of JS `s.includes(t)`. -/
def jsIncludes (t : List Char) : List Char → Bool
  | [] => isPrefOf t []
  | c :: cs => isPrefOf t (c :: cs) || jsIncludes t cs

/-- Model of JS `s.replace(t, "")`: remove the first occurrence of `t`. -/
def jsReplace (t : List Char) : List Char → List Char
  | [] => []
  | c :: cs =>
    if isPrefOf t (c :: cs) then (c :: cs).drop t.length
    else c :: jsReplace t cs

/-! ## JS number-to-string (decimal rendering of ids) -/

/-- Decimal digits of `n`, most significant first; fuel-structured so that it
is structurally recursive (the fuel `n + 1` always suffices). -/
def natDecAux : Nat → Nat → List Char
  | 0, _ => []
  | f + 1, n =>
    if n < 10 then [Nat.digitChar n]
    else natDecAux f (n / 10) ++ [Nat.digitChar (n % 10)]

/-- Decimal rendering of a natural number, as in JS template literals. -/
def natDec (n : Nat) : List Char := natDecAux (n + 1) n

/-- Decimal rendering of an integer, as in JS template literals. -/
def intDec (i : Int) : List Char :=
  if i < 0 then '-' :: natDec (-i).toNat else natDec i.toNat

/-- Numeric value of a decimal digit character (inverse of `Nat.digitChar`
on digits). -/
def digitVal (c : Char) : Nat := c.toNat - 48

/-- Decimal value of a digit list (used to invert `natDec`). -/
def decValue (ds : List Char) : Nat :=
  ds.foldl (fun a c => a * 10 + digitVal c) 0

/-! ## String constants of the source -/

/-- The mention tag: `@` followed by the default `BOT_USERNAME`. -/
def mentionTag : List Char := "@ScopeShield_Bot".data

/-- Chat type of one-to-one chats. -/
def privateStr : List Char := "private".data

/-- Terminal run status accepted by `runAssistant`. -/
def completedStr : List Char := "completed".data

/-- Author role selected when extracting the reply. -/
def assistantStr : List Char := "assistant".data

/-- Fallback reply of `runAssistant` when no assistant text is found. -/
def noResponseText : List Char := "No response generated.".data

/-- Fallback message sent to the chat when request handling fails. -/
def errorText : List Char := "Error processing your request.".data

/-- How JS renders `undefined` inside a template literal. -/
def undefinedStr : List Char := "undefined".data

/-! ## Thread store -/

/-- The in-memory `threads` object: an insertion-ordered string-keyed map. -/
abbrev ThreadMap := List (List Char × List Char)

/-- JS property read `m[k]` (first binding wins; keys are unique in use). -/
def lookupKey : ThreadMap → List Char → Option (List Char)
  | [], _ => none
  | (k', v) :: rest, k => if k' = k then some v else lookupKey rest k

/-- JS property write `m[k] = v`: update in place, or append a new binding. -/
def setKey : ThreadMap → List Char → List Char → ThreadMap
  | [], k, v => [(k, v)]
  | (k', v') :: rest, k, v =>
    if k' = k then (k, v) :: rest else (k', v') :: setKey rest k v

/-- JS truthiness of `threads[key]`: absent and the empty string are falsy. -/
def truthyLookup (m : ThreadMap) (k : List Char) : Option (List Char) :=
  match lookupKey m k with
  | none => none
  | some v => if v = [] then none else some v

/-- The process state the webhook handler can mutate: the in-memory map and
the content of the persisted `threads.json` file. -/
structure StoreState where
  threads : ThreadMap
  file : ThreadMap
  deriving DecidableEq

/-- Source `getThreadKey(chatId, userId)`: the template literal
`chatId ++ ":" ++ userId`, with an absent user id rendering as
"undefined". -/
def getThreadKey (chatId : Int) (userId : Option Int) : List Char :=
  intDec chatId ++ ':' ::
    (match userId with
     | some n => intDec n
     | none => undefinedStr)

/-! ## External world and effects -/

/-- Content of one assistant message, following the OpenAI payload shape
`content[0].text.value` with every level optional. -/
structure TextVal where
  value : List Char
  deriving DecidableEq

/-- One element of an assistant message's `content` array. -/
structure ContentItem where
  text : Option TextVal
  deriving DecidableEq

/-- One message returned by `messages.list`. -/
structure AMsg where
  role : List Char
  content : Option (List ContentItem)
  deriving DecidableEq

/-- Results of the external calls a single webhook delivery can make.
`Except.error` means the awaited call rejected. -/
structure ExtCalls where
  createThread : Except Unit (List Char)
  saveOk : Bool
  msgCreateOk : Bool
  runPoll : Except Unit (List Char)
  listMsgs : Except Unit (List AMsg)
  sendReplyOk : Bool
  sendFallbackOk : Bool

/-- Outbound calls performed while handling one delivery, in order.
`tgSend` records every `bot.sendMessage` attempt (successful or not);
`askAssistant` records the dispatcher invoking the assistant adapter. -/
inductive Effect where
  | tgSend (chatId : Int) (text : List Char) (replyTo : Option Int)
  | askAssistant (chatId : Int) (userId : Option Int) (text : List Char)
  | aiCreateThread
  | aiMsgCreate (text : List Char)
  | aiRunPoll
  | aiListMsgs
  | fsWrite (content : ThreadMap)
  deriving DecidableEq

/-- Recognizes chat-transport sends among the effects. -/
def isTgSend : Effect → Bool
  | Effect.tgSend _ _ _ => true
  | _ => false

/-- Errors `runAssistant` can raise (all are caught by the dispatcher). -/
inductive RunErr where
  | createFailed
  | saveFailed
  | msgCreateFailed
  | pollFailed
  | runFailed (status : List Char)
  | listFailed
  deriving DecidableEq

/-! ## getOrCreateThread and runAssistant -/

/-- Source `getOrCreateThread(chatId, userId)`: look the key up; if truthy
return it, else create a thread (external call), store the mapping, and
synchronously persist the whole map (`saveThreads`). A failing persist
throws after the in-memory write. -/
def getOrCreateThread (ext : ExtCalls) (chatId : Int) (userId : Option Int)
    (s : StoreState) : Except RunErr (List Char) × StoreState × List Effect :=
  match truthyLookup s.threads (getThreadKey chatId userId) with
  | some tid => (Except.ok tid, s, [])
  | none =>
    match ext.createThread with
    | Except.error _ => (Except.error RunErr.createFailed, s, [Effect.aiCreateThread])
    | Except.ok tid =>
      let ts := setKey s.threads (getThreadKey chatId userId) tid
      if ext.saveOk then
        (Except.ok tid, ⟨ts, ts⟩, [Effect.aiCreateThread, Effect.fsWrite ts])
      else
        (Except.error RunErr.saveFailed, ⟨ts, s.file⟩,
          [Effect.aiCreateThread, Effect.fsWrite ts])

/-- Source `assistantMessage?.content?.[0]?.text?.value || "No response
generated."`: the optional chain combined with JS `||` (empty string is
falsy). -/
def extractReply (msgs : List AMsg) : List Char :=
  match msgs.find? (fun m => m.role == assistantStr) with
  | none => noResponseText
  | some m =>
    match m.content with
    | none => noResponseText
    | some [] => noResponseText
    | some (item :: _) =>
      match item.text with
      | none => noResponseText
      | some tv => if tv.value = [] then noResponseText else tv.value

/-- Source `runAssistant(chatId, userId, userText)`: resolve the thread,
append the user message, start a run and await its terminal status, fail
unless it is "completed", then pick the most recent assistant message. -/
def runAssistant (ext : ExtCalls) (chatId : Int) (userId : Option Int)
    (userText : List Char) (s : StoreState) :
    Except RunErr (List Char) × StoreState × List Effect :=
  match getOrCreateThread ext chatId userId s with
  | (Except.error e, s', fx) => (Except.error e, s', fx)
  | (Except.ok _, s', fx) =>
    if ext.msgCreateOk then
      match ext.runPoll with
      | Except.error _ =>
        (Except.error RunErr.pollFailed, s',
          fx ++ [Effect.aiMsgCreate userText, Effect.aiRunPoll])
      | Except.ok status =>
        if status = completedStr then
          match ext.listMsgs with
          | Except.error _ =>
            (Except.error RunErr.listFailed, s',
              fx ++ [Effect.aiMsgCreate userText, Effect.aiRunPoll, Effect.aiListMsgs])
          | Except.ok msgs =>
            (Except.ok (extractReply msgs), s',
              fx ++ [Effect.aiMsgCreate userText, Effect.aiRunPoll, Effect.aiListMsgs])
        else
          (Except.error (RunErr.runFailed status), s',
            fx ++ [Effect.aiMsgCreate userText, Effect.aiRunPoll])
    else
      (Except.error RunErr.msgCreateFailed, s', fx ++ [Effect.aiMsgCreate userText])

/-! ## Webhook dispatcher -/

/-- Modelled from the spec: the Express response acknowledgment
(`res.sendStatus(200)`, "always HTTP 200 with empty body") is code of the
web framework, not of src; `ok200` is the success acknowledgment of the
inbound delivery, `crash` is an uncaught rejection of the async handler,
after which no acknowledgment is ever sent for this delivery. -/
inductive Outcome where
  | ok200
  | crash
  deriving DecidableEq

/-- One inbound Telegram message as read by the handler. -/
structure ChatMsg where
  chatId : Int
  chatType : List Char
  fromId : Option Int
  text : Option (List Char)
  messageId : Int
  deriving DecidableEq

/-- The text the dispatcher forwards to the assistant adapter: the trimmed
text in a private chat, otherwise the trimmed text with the first mention
tag removed and re-trimmed (source lines 124-137). -/
def normText (chatType : List Char) (raw : List Char) : List Char :=
  if chatType = privateStr then jsTrim raw
  else jsTrim (jsReplace mentionTag (jsTrim raw))

/-- The try/catch of the webhook handler (source lines 139-149): call the
adapter; on success send the reply as a threaded reply; on any caught error
send the fallback text. A rejected send inside the catch block escapes the
handler (no acknowledgment). -/
def handleRun (ext : ExtCalls) (m : ChatMsg) (t2 : List Char) (s : StoreState) :
    Outcome × StoreState × List Effect :=
  match runAssistant ext m.chatId m.fromId t2 s with
  | (Except.ok reply, s', fx) =>
    if ext.sendReplyOk then
      (Outcome.ok200, s',
        Effect.askAssistant m.chatId m.fromId t2 ::
          (fx ++ [Effect.tgSend m.chatId reply (some m.messageId)]))
    else if ext.sendFallbackOk then
      (Outcome.ok200, s',
        Effect.askAssistant m.chatId m.fromId t2 ::
          (fx ++ [Effect.tgSend m.chatId reply (some m.messageId),
                  Effect.tgSend m.chatId errorText none]))
    else
      (Outcome.crash, s',
        Effect.askAssistant m.chatId m.fromId t2 ::
          (fx ++ [Effect.tgSend m.chatId reply (some m.messageId),
                  Effect.tgSend m.chatId errorText none]))
  | (Except.error _, s', fx) =>
    if ext.sendFallbackOk then
      (Outcome.ok200, s',
        Effect.askAssistant m.chatId m.fromId t2 ::
          (fx ++ [Effect.tgSend m.chatId errorText none]))
    else
      (Outcome.crash, s',
        Effect.askAssistant m.chatId m.fromId t2 ::
          (fx ++ [Effect.tgSend m.chatId errorText none]))

/-- Classification step (source lines 126-137): in a non-private chat a
message lacking the mention tag is silently ignored; otherwise the
normalized text is forwarded. -/
def handleText (ext : ExtCalls) (m : ChatMsg) (raw : List Char) (s : StoreState) :
    Outcome × StoreState × List Effect :=
  if m.chatType ≠ privateStr ∧ jsIncludes mentionTag (jsTrim raw) = false then
    (Outcome.ok200, s, [])
  else
    handleRun ext m (normText m.chatType raw) s

/-- The webhook endpoint handler (source lines 115-150): validate that a
text message is present (absent or empty text is falsy), then classify and
dispatch. -/
def handleWebhook (ext : ExtCalls) (upd : Option ChatMsg) (s : StoreState) :
    Outcome × StoreState × List Effect :=
  match upd with
  | none => (Outcome.ok200, s, [])
  | some m =>
    match m.text with
    | none => (Outcome.ok200, s, [])
    | some raw =>
      if raw = [] then (Outcome.ok200, s, [])
      else handleText ext m raw s

/-! ## Concrete fixtures for witnesses and counterexamples -/

/-- An empty store whose file mirror is in sync. -/
def emptyStore : StoreState := ⟨[], []⟩

/-- A fresh thread id as issued by the backend. -/
def thNew : List Char := "thread_abc".data

/-- A well-formed assistant reply message. -/
def msgHello : AMsg := ⟨assistantStr, some [⟨some ⟨"hello there".data⟩⟩]⟩

/-- An assistant-authored message with an empty content array. -/
def msgNoPayload : AMsg := ⟨assistantStr, some []⟩

/-- An environment in which every external call succeeds. -/
def extOK : ExtCalls :=
  { createThread := Except.ok thNew
    saveOk := true
    msgCreateOk := true
    runPoll := Except.ok completedStr
    listMsgs := Except.ok [msgHello]
    sendReplyOk := true
    sendFallbackOk := true }

/-- An environment whose assistant run terminates with status "failed". -/
def extRunFail : ExtCalls := { extOK with runPoll := Except.ok ("failed".data) }

/-- Run failure combined with a rejecting fallback send. -/
def extCrash : ExtCalls := { extRunFail with sendFallbackOk := false }

/-- A private-chat message. -/
def mPriv : ChatMsg :=
  { chatId := 5, chatType := privateStr, fromId := some 7,
    text := some ("hello".data), messageId := 99 }

/-- A private-chat message whose text carries leading whitespace. -/
def mPrivPad : ChatMsg := { mPriv with text := some (" hi".data) }

/-- The spec's group-chat example message. -/
def mGroupRefund : ChatMsg :=
  { chatId := -100, chatType := "group".data, fromId := some 7,
    text := some ("@ScopeShield_Bot  what is the refund policy?".data),
    messageId := 3 }

/-- A group-chat message that does not mention the bot. -/
def mGroupNoTag : ChatMsg :=
  { mGroupRefund with text := some ("good morning all".data) }

/-- A private-chat message whose `from` field is absent. -/
def mNoFrom : ChatMsg :=
  { chatId := 5, chatType := privateStr, fromId := none,
    text := some ("hola".data), messageId := 1 }

/-- The optional chain `m.content?.[0]?.text?.value` of one listed message
(the value `extractReply` tests for truthiness). -/
def primaryPayload (m : AMsg) : Option (List Char) :=
  match m.content with
  | none => none
  | some [] => none
  | some (item :: _) =>
    match item.text with
    | none => none
    | some tv => some tv.value

/-- A pre-existing key in the store fixture. -/
def oldKey : List Char := "1:1".data

/-- The context id already stored under `oldKey`. -/
def oldTid : List Char := "thread_old".data

/-- A store that already holds one mapping, memory and file in sync. -/
def storePre : StoreState := ⟨[(oldKey, oldTid)], [(oldKey, oldTid)]⟩

/-! ## Decimal rendering: characters, value, injectivity -/

theorem digitVal_digitChar {d : Nat} (hd : d < 10) :
    digitVal (Nat.digitChar d) = d := by
  have h : ∀ p : Fin 10, digitVal (Nat.digitChar p.val) = p.val := by decide
  exact h ⟨d, hd⟩

theorem digitChar_ne_dash : ∀ p : Fin 10, Nat.digitChar p.val ≠ '-' := by decide

theorem digitChar_ne_colon : ∀ p : Fin 10, Nat.digitChar p.val ≠ ':' := by decide

theorem natDecAux_chars (f : Nat) :
    ∀ n c, c ∈ natDecAux f n → ∃ d, d < 10 ∧ c = Nat.digitChar d := by
  induction f with
  | zero => intro n c hc; simp [natDecAux] at hc
  | succ f ih =>
    intro n c hc
    by_cases h : n < 10
    · simp [natDecAux, h] at hc
      exact ⟨n, h, hc⟩
    · simp [natDecAux, h] at hc
      rcases hc with hc | hc
      · exact ih _ c hc
      · exact ⟨n % 10, Nat.mod_lt _ (by norm_num), hc⟩

theorem natDec_chars (n : Nat) :
    ∀ c ∈ natDec n, ∃ d, d < 10 ∧ c = Nat.digitChar d :=
  natDecAux_chars (n + 1) n

theorem decValue_append_single (ds : List Char) (c : Char) :
    decValue (ds ++ [c]) = decValue ds * 10 + digitVal c := by
  unfold decValue
  rw [List.foldl_append]
  rfl

theorem decValue_natDecAux (f : Nat) :
    ∀ n, n < f → decValue (natDecAux f n) = n := by
  induction f with
  | zero => omega
  | succ f ih =>
    intro n hn
    by_cases h : n < 10
    · have : natDecAux (f + 1) n = [Nat.digitChar n] := by simp [natDecAux, h]
      rw [this]
      show decValue ([] ++ [Nat.digitChar n]) = n
      rw [decValue_append_single]
      simp [decValue, digitVal_digitChar h]
    · have hdiv : n / 10 < n := Nat.div_lt_self (by omega) (by norm_num)
      have : natDecAux (f + 1) n
          = natDecAux f (n / 10) ++ [Nat.digitChar (n % 10)] := by
        simp [natDecAux, h]
      rw [this, decValue_append_single, ih (n / 10) (by omega),
        digitVal_digitChar (Nat.mod_lt _ (by norm_num))]
      omega

theorem natDec_inj {a b : Nat} (h : natDec a = natDec b) : a = b := by
  have ha := decValue_natDecAux (a + 1) a (by omega)
  have hb := decValue_natDecAux (b + 1) b (by omega)
  unfold natDec at h
  rw [h, hb] at ha
  exact ha.symm

theorem intDec_no_colon (i : Int) : ∀ c ∈ intDec i, c ≠ ':' := by
  intro c hc
  unfold intDec at hc
  split at hc
  · rcases List.mem_cons.mp hc with h | h
    · subst h; decide
    · obtain ⟨d, hd, rfl⟩ := natDec_chars _ c h
      exact digitChar_ne_colon ⟨d, hd⟩
  · obtain ⟨d, hd, rfl⟩ := natDec_chars _ c hc
    exact digitChar_ne_colon ⟨d, hd⟩

theorem intDec_inj {i j : Int} (h : intDec i = intDec j) : i = j := by
  unfold intDec at h
  by_cases hi : i < 0 <;> by_cases hj : j < 0 <;> simp [hi, hj] at h
  · have := natDec_inj h
    omega
  · exfalso
    have hm : '-' ∈ natDec j.toNat := by
      rw [← h]; exact List.mem_cons_self _ _
    obtain ⟨d, hd, hc⟩ := natDec_chars _ '-' hm
    exact digitChar_ne_dash ⟨d, hd⟩ hc.symm
  · exfalso
    have hm : '-' ∈ natDec i.toNat := by
      rw [h]; exact List.mem_cons_self _ _
    obtain ⟨d, hd, hc⟩ := natDec_chars _ '-' hm
    exact digitChar_ne_dash ⟨d, hd⟩ hc.symm
  · have := natDec_inj h
    omega

theorem split_at_colon :
    ∀ (l1 l2 r1 r2 : List Char),
      (∀ c ∈ l1, c ≠ ':') → (∀ c ∈ l2, c ≠ ':') →
      l1 ++ ':' :: r1 = l2 ++ ':' :: r2 → l1 = l2 ∧ r1 = r2 := by
  intro l1
  induction l1 with
  | nil =>
    intro l2 r1 r2 _ h2 h
    cases l2 with
    | nil => simpa using h
    | cons b l2' =>
      exfalso
      simp only [List.nil_append, List.cons_append, List.cons.injEq] at h
      exact h2 b (List.mem_cons_self _ _) h.1.symm
  | cons a l1' ih =>
    intro l2 r1 r2 h1 h2 h
    cases l2 with
    | nil =>
      exfalso
      simp only [List.nil_append, List.cons_append, List.cons.injEq] at h
      exact h1 a (List.mem_cons_self _ _) h.1
    | cons b l2' =>
      simp only [List.cons_append, List.cons.injEq] at h
      obtain ⟨rfl, h⟩ := h
      have hr := ih l2' r1 r2 (fun c hc => h1 c (List.mem_cons_of_mem _ hc))
        (fun c hc => h2 c (List.mem_cons_of_mem _ hc)) h
      exact ⟨by rw [hr.1], hr.2⟩

/-- C8: the derived key is injective over integer id pairs: two pairs derive
the same key string exactly when they are the same pair (so the same pair
always re-derives the same key, and distinct pairs never collide). -/
theorem getThreadKey_inj_iff (c1 u1 c2 u2 : Int) :
    getThreadKey c1 (some u1) = getThreadKey c2 (some u2) ↔ (c1 = c2 ∧ u1 = u2) := by
  constructor
  · intro h
    simp only [getThreadKey] at h
    have hs := split_at_colon (intDec c1) (intDec c2) (intDec u1) (intDec u2)
      (intDec_no_colon c1) (intDec_no_colon c2) h
    exact ⟨intDec_inj hs.1, intDec_inj hs.2⟩
  · rintro ⟨rfl, rfl⟩
    rfl

/-- C8 witness: the reasonable-range pair (12, 3) does not collide with
(1, 23), although the naive concatenation of the digits would. -/
theorem getThreadKey_inj_iff_witness :
    getThreadKey 12 (some 3) ≠ getThreadKey 1 (some 23)
    ∧ getThreadKey 12 (some 3) = getThreadKey 12 (some 3) := by
  constructor
  · intro h
    have := (getThreadKey_inj_iff 12 3 1 23).mp h
    omega
  · rfl

/-! ## Thread-store lemmas -/

theorem lookupKey_append_of_some :
    ∀ {m : ThreadMap} {k v}, lookupKey m k = some v →
      ∀ l, lookupKey (m ++ l) k = some v := by
  intro m
  induction m with
  | nil => intro k v h; simp [lookupKey] at h
  | cons p rest ih =>
    intro k v h l
    obtain ⟨k', v'⟩ := p
    by_cases hk : k' = k
    · simp [lookupKey, hk] at h ⊢
      exact h
    · simp [lookupKey, hk] at h ⊢
      exact ih h l

theorem lookupKey_append_fresh :
    ∀ {m : ThreadMap} {k}, lookupKey m k = none →
      ∀ v, lookupKey (m ++ [(k, v)]) k = some v := by
  intro m
  induction m with
  | nil => intro k _ v; simp [lookupKey]
  | cons p rest ih =>
    intro k h v
    obtain ⟨k', v'⟩ := p
    by_cases hk : k' = k
    · simp [lookupKey, hk] at h
    · simp [lookupKey, hk] at h ⊢
      exact ih h v

theorem setKey_fresh :
    ∀ {m : ThreadMap} {k}, lookupKey m k = none →
      ∀ v, setKey m k v = m ++ [(k, v)] := by
  intro m
  induction m with
  | nil => intro k _ v; rfl
  | cons p rest ih =>
    intro k h v
    obtain ⟨k', v'⟩ := p
    by_cases hk : k' = k
    · simp [lookupKey, hk] at h
    · simp [lookupKey, hk] at h
      simp [setKey, hk, ih h v]

/-! ## C1: getOrCreateThread called twice -/

/-- C1: starting from a store where the (chatId, userId) pair is absent and
memory and file agree, a first `getOrCreateThread` (whose external calls
succeed and whose new id is non-empty) returns the new id and persists the
prior content extended with exactly that one entry; an immediately repeated
call under any environment returns the same id, leaves the entire store
state (memory and file) unchanged and performs no external call at all. -/
theorem getOrCreateThread_second_call_pure
    (ext1 ext2 : ExtCalls) (c : Int) (u : Option Int) (s : StoreState)
    (tid : List Char)
    (hfresh : lookupKey s.threads (getThreadKey c u) = none)
    (hsync : s.file = s.threads)
    (hcreate : ext1.createThread = Except.ok tid)
    (htid : tid ≠ [])
    (hsave : ext1.saveOk = true) :
    (getOrCreateThread ext1 c u s).1 = Except.ok tid
    ∧ (getOrCreateThread ext1 c u s).2.1.file
        = s.file ++ [(getThreadKey c u, tid)]
    ∧ (getOrCreateThread ext2 c u (getOrCreateThread ext1 c u s).2.1).1
        = Except.ok tid
    ∧ (getOrCreateThread ext2 c u (getOrCreateThread ext1 c u s).2.1).2.1
        = (getOrCreateThread ext1 c u s).2.1
    ∧ (getOrCreateThread ext2 c u (getOrCreateThread ext1 c u s).2.1).2.2
        = [] := by
  have htr : truthyLookup s.threads (getThreadKey c u) = none := by
    simp [truthyLookup, hfresh]
  have h1 : getOrCreateThread ext1 c u s =
      (Except.ok tid,
        ⟨s.threads ++ [(getThreadKey c u, tid)],
         s.threads ++ [(getThreadKey c u, tid)]⟩,
        [Effect.aiCreateThread,
         Effect.fsWrite (s.threads ++ [(getThreadKey c u, tid)])]) := by
    unfold getOrCreateThread
    rw [htr, hcreate]
    simp [hsave, setKey_fresh hfresh]
  have h2 : truthyLookup (s.threads ++ [(getThreadKey c u, tid)])
      (getThreadKey c u) = some tid := by
    simp [truthyLookup, lookupKey_append_fresh hfresh, htid]
  refine ⟨?_, ?_, ?_, ?_, ?_⟩ <;>
    rw [h1] <;>
    simp [getOrCreateThread, h2, hsync]

/-- C1 witness: a concrete first-contact pair on the empty store. -/
theorem getOrCreateThread_second_call_pure_witness :
    (getOrCreateThread extOK 1 (some 2) emptyStore).1 = Except.ok thNew
    ∧ (getOrCreateThread extOK 1 (some 2) emptyStore).2.1.file
        = emptyStore.file ++ [(getThreadKey 1 (some 2), thNew)]
    ∧ (getOrCreateThread extOK 1 (some 2)
        (getOrCreateThread extOK 1 (some 2) emptyStore).2.1).1
        = Except.ok thNew
    ∧ (getOrCreateThread extOK 1 (some 2)
        (getOrCreateThread extOK 1 (some 2) emptyStore).2.1).2.1
        = (getOrCreateThread extOK 1 (some 2) emptyStore).2.1
    ∧ (getOrCreateThread extOK 1 (some 2)
        (getOrCreateThread extOK 1 (some 2) emptyStore).2.1).2.2
        = [] :=
  getOrCreateThread_second_call_pure extOK extOK 1 (some 2) emptyStore thNew
    rfl rfl rfl (by decide) rfl

/-! ## Whitespace, replace and includes lemmas -/

theorem isPrefOf_ws_head {t : List Char} (hT : ∀ c ∈ t, isWS c = false)
    (hne : t ≠ []) {c : Char} (hc : isWS c = true) (z : List Char) :
    isPrefOf t (c :: z) = false := by
  cases t with
  | nil => exact absurd rfl hne
  | cons th tt =>
    have hth : isWS th = false := hT th (List.mem_cons_self _ _)
    have hbe : (th == c) = false := by
      rw [beq_eq_false_iff_ne]
      intro h
      rw [h, hc] at hth
      exact absurd hth (by decide)
    simp [isPrefOf, hbe]

theorem jsReplace_all_ws {t : List Char} (hT : ∀ c ∈ t, isWS c = false)
    (hne : t ≠ []) :
    ∀ {w : List Char}, (∀ c ∈ w, isWS c = true) → jsReplace t w = w := by
  intro w
  induction w with
  | nil => intro _; rfl
  | cons c w' ih =>
    intro hW
    have hp := isPrefOf_ws_head hT hne (hW c (List.mem_cons_self _ _)) w'
    simp [jsReplace, hp]
    exact ih (fun x hx => hW x (List.mem_cons_of_mem _ hx))

theorem jsIncludes_all_ws {t : List Char} (hT : ∀ c ∈ t, isWS c = false)
    (hne : t ≠ []) :
    ∀ {w : List Char}, (∀ c ∈ w, isWS c = true) → jsIncludes t w = false := by
  intro w
  induction w with
  | nil =>
    intro _
    cases t with
    | nil => exact absurd rfl hne
    | cons a b => rfl
  | cons c w' ih =>
    intro hW
    have hp := isPrefOf_ws_head hT hne (hW c (List.mem_cons_self _ _)) w'
    simp [jsIncludes, hp]
    exact ih (fun x hx => hW x (List.mem_cons_of_mem _ hx))

theorem isPrefOf_append_true :
    ∀ {t x : List Char}, isPrefOf t x = true → ∀ w, isPrefOf t (x ++ w) = true := by
  intro t
  induction t with
  | nil => intro x _ w; rfl
  | cons a as ih =>
    intro x h w
    cases x with
    | nil => simp [isPrefOf] at h
    | cons b bs =>
      simp [isPrefOf] at h ⊢
      exact ⟨h.1, ih h.2 w⟩

theorem isPrefOf_append_ws_elim :
    ∀ (t x w : List Char), (∀ c ∈ t, isWS c = false) →
      (∀ c ∈ w, isWS c = true) → isPrefOf t (x ++ w) = true →
      isPrefOf t x = true ∧ t.length ≤ x.length := by
  intro t
  induction t with
  | nil => intro x w _ _ _; exact ⟨rfl, Nat.zero_le _⟩
  | cons a as ih =>
    intro x w hT hW h
    cases x with
    | nil =>
      exfalso
      cases w with
      | nil => simp [isPrefOf] at h
      | cons c w' =>
        have ha := hT a (List.mem_cons_self _ _)
        have hc := hW c (List.mem_cons_self _ _)
        simp only [List.nil_append, isPrefOf, Bool.and_eq_true, beq_iff_eq] at h
        rw [h.1, hc] at ha
        exact absurd ha (by decide)
    | cons b bs =>
      simp only [List.cons_append, isPrefOf, Bool.and_eq_true, beq_iff_eq] at h
      have hr := ih bs w (fun c hc => hT c (List.mem_cons_of_mem _ hc)) hW h.2
      refine ⟨?_, ?_⟩
      · simp only [isPrefOf, Bool.and_eq_true, beq_iff_eq]
        exact ⟨h.1, hr.1⟩
      · simp only [List.length_cons]
        omega

theorem isPrefOf_append_ws (t x w : List Char)
    (hT : ∀ c ∈ t, isWS c = false) (hW : ∀ c ∈ w, isWS c = true) :
    isPrefOf t (x ++ w) = isPrefOf t x := by
  cases h : isPrefOf t x with
  | true => exact isPrefOf_append_true h w
  | false =>
    cases h2 : isPrefOf t (x ++ w) with
    | false => rfl
    | true =>
      have hx := (isPrefOf_append_ws_elim t x w hT hW h2).1
      rw [h] at hx
      exact absurd hx (by decide)

theorem drop_append_le :
    ∀ (x : List Char) (n : Nat), n ≤ x.length → ∀ w, (x ++ w).drop n = x.drop n ++ w := by
  intro x
  induction x with
  | nil =>
    intro n hn w
    have : n = 0 := Nat.le_zero.mp (by simpa using hn)
    subst this
    simp
  | cons a x' ih =>
    intro n hn w
    cases n with
    | zero => simp
    | succ n' =>
      rw [List.cons_append, List.drop_succ_cons, List.drop_succ_cons]
      exact ih n' (by simpa using hn) w

theorem jsReplace_ws_prepend {t : List Char} (hT : ∀ c ∈ t, isWS c = false)
    (hne : t ≠ []) :
    ∀ {w : List Char}, (∀ c ∈ w, isWS c = true) →
      ∀ s, jsReplace t (w ++ s) = w ++ jsReplace t s := by
  intro w
  induction w with
  | nil => intro _ s; simp
  | cons c w' ih =>
    intro hW s
    have hp := isPrefOf_ws_head hT hne (hW c (List.mem_cons_self _ _)) (w' ++ s)
    simp [jsReplace, hp]
    exact ih (fun x hx => hW x (List.mem_cons_of_mem _ hx)) s

theorem jsReplace_ws_append {t : List Char} (hT : ∀ c ∈ t, isWS c = false)
    (hne : t ≠ []) :
    ∀ (x : List Char) {w : List Char}, (∀ c ∈ w, isWS c = true) →
      jsReplace t (x ++ w) = jsReplace t x ++ w := by
  intro x
  induction x with
  | nil =>
    intro w hW
    simp only [List.nil_append]
    rw [jsReplace_all_ws hT hne hW]
    rfl
  | cons b x' ih =>
    intro w hW
    show jsReplace t (b :: (x' ++ w)) = jsReplace t (b :: x') ++ w
    cases hp : isPrefOf t (b :: (x' ++ w)) with
    | true =>
      have helim := isPrefOf_append_ws_elim t (b :: x') w hT hW
        (by rw [List.cons_append]; exact hp)
      simp only [jsReplace, hp, if_true]
      rw [show (b : Char) :: (x' ++ w) = (b :: x') ++ w from rfl,
        drop_append_le (b :: x') t.length helim.2 w]
      simp [jsReplace, helim.1]
    | false =>
      have hp2 : isPrefOf t (b :: x') = false := by
        cases h2 : isPrefOf t (b :: x') with
        | false => rfl
        | true =>
          have := isPrefOf_append_true h2 w
          rw [List.cons_append] at this
          rw [this] at hp
          exact absurd hp (by decide)
      simp only [jsReplace, hp, hp2, Bool.false_eq_true, if_false, List.cons_append]
      rw [ih hW]

theorem jsIncludes_ws_prepend {t : List Char} (hT : ∀ c ∈ t, isWS c = false)
    (hne : t ≠ []) :
    ∀ {w : List Char}, (∀ c ∈ w, isWS c = true) →
      ∀ s, jsIncludes t (w ++ s) = jsIncludes t s := by
  intro w
  induction w with
  | nil => intro _ s; simp
  | cons c w' ih =>
    intro hW s
    have hp := isPrefOf_ws_head hT hne (hW c (List.mem_cons_self _ _)) (w' ++ s)
    simp [jsIncludes, hp]
    exact ih (fun x hx => hW x (List.mem_cons_of_mem _ hx)) s

theorem jsIncludes_ws_append {t : List Char} (hT : ∀ c ∈ t, isWS c = false)
    (hne : t ≠ []) :
    ∀ (x : List Char) {w : List Char}, (∀ c ∈ w, isWS c = true) →
      jsIncludes t (x ++ w) = jsIncludes t x := by
  intro x
  induction x with
  | nil =>
    intro w hW
    simp only [List.nil_append]
    rw [jsIncludes_all_ws hT hne hW]
    cases t with
    | nil => exact absurd rfl hne
    | cons a b => rfl
  | cons b x' ih =>
    intro w hW
    show jsIncludes t (b :: (x' ++ w)) = jsIncludes t (b :: x')
    simp only [jsIncludes]
    rw [← List.cons_append, isPrefOf_append_ws t (b :: x') w hT hW, ih hW]

/-! ## Trim decomposition -/

theorem dropWhile_ws_append :
    ∀ {w : List Char}, (∀ c ∈ w, isWS c = true) →
      ∀ z, (w ++ z).dropWhile isWS = z.dropWhile isWS := by
  intro w
  induction w with
  | nil => intro _ z; rfl
  | cons c w' ih =>
    intro hW z
    have hc := hW c (List.mem_cons_self _ _)
    rw [List.cons_append, List.dropWhile_cons, if_pos hc]
    exact ih (fun x hx => hW x (List.mem_cons_of_mem _ hx)) z

theorem dropWhile_ws_all {w : List Char} (hW : ∀ c ∈ w, isWS c = true) :
    w.dropWhile isWS = [] :=
  List.dropWhile_eq_nil_iff.mpr hW

theorem dropWhile_append_ne_nil :
    ∀ {y : List Char}, y.dropWhile isWS ≠ [] →
      ∀ w, (y ++ w).dropWhile isWS = y.dropWhile isWS ++ w := by
  intro y
  induction y with
  | nil => intro h _; exact absurd rfl h
  | cons c y' ih =>
    intro h w
    cases hc : isWS c with
    | true =>
      rw [List.dropWhile_cons, if_pos hc] at h
      rw [List.cons_append, List.dropWhile_cons, if_pos hc,
        List.dropWhile_cons, if_pos hc]
      exact ih h w
    | false =>
      rw [List.cons_append, List.dropWhile_cons,
        if_neg (by rw [hc]; exact (by decide)), List.dropWhile_cons,
        if_neg (by rw [hc]; exact (by decide))]
      rfl

theorem rtrim_ws_append {y w : List Char} (hW : ∀ c ∈ w, isWS c = true) :
    rtrimCL (y ++ w) = rtrimCL y := by
  unfold rtrimCL
  rw [List.reverse_append,
    dropWhile_ws_append (fun c hc => hW c (List.mem_reverse.mp hc))]

theorem trim_ws_wrap (w1 y w2 : List Char)
    (h1 : ∀ c ∈ w1, isWS c = true) (h2 : ∀ c ∈ w2, isWS c = true) :
    jsTrim (w1 ++ (y ++ w2)) = jsTrim y := by
  unfold jsTrim ltrimCL
  rw [dropWhile_ws_append h1]
  by_cases hy : y.dropWhile isWS = []
  · have hyw : ∀ c ∈ y, isWS c = true := List.dropWhile_eq_nil_iff.mp hy
    have hall : (y ++ w2).dropWhile isWS = [] :=
      dropWhile_ws_all (by
        intro c hc
        rcases List.mem_append.mp hc with h | h
        · exact hyw c h
        · exact h2 c h)
    rw [hall, hy]
  · rw [dropWhile_append_ne_nil hy w2, rtrim_ws_append h2]

theorem trim_decomp (s : List Char) :
    ∃ w1 w2, (∀ c ∈ w1, isWS c = true) ∧ (∀ c ∈ w2, isWS c = true) ∧
      s = w1 ++ (jsTrim s ++ w2) := by
  refine ⟨s.takeWhile isWS, ((ltrimCL s).reverse.takeWhile isWS).reverse,
    ?_, ?_, ?_⟩
  · intro c hc
    exact List.mem_takeWhile_imp hc
  · intro c hc
    exact List.mem_takeWhile_imp (List.mem_reverse.mp hc)
  · conv_lhs => rw [← List.takeWhile_append_dropWhile (p := isWS) (l := s)]
    congr 1
    show ltrimCL s = jsTrim s ++ _
    unfold jsTrim rtrimCL
    conv_lhs => rw [← List.reverse_reverse (ltrimCL s),
      ← List.takeWhile_append_dropWhile (p := isWS) (l := (ltrimCL s).reverse),
      List.reverse_append]

/-! ## The two trim-commutation facts used by the dispatcher claims -/

theorem trim_replace_trim (t : List Char) (hT : ∀ c ∈ t, isWS c = false)
    (hne : t ≠ []) (s : List Char) :
    jsTrim (jsReplace t (jsTrim s)) = jsTrim (jsReplace t s) := by
  obtain ⟨w1, w2, h1, h2, hs⟩ := trim_decomp s
  conv_rhs => rw [hs]
  rw [jsReplace_ws_prepend hT hne h1, jsReplace_ws_append hT hne _ h2,
    trim_ws_wrap w1 _ w2 h1 h2]

theorem includes_trim (t : List Char) (hT : ∀ c ∈ t, isWS c = false)
    (hne : t ≠ []) (s : List Char) :
    jsIncludes t (jsTrim s) = jsIncludes t s := by
  obtain ⟨w1, w2, h1, h2, hs⟩ := trim_decomp s
  conv_rhs => rw [hs]
  rw [jsIncludes_ws_prepend hT hne h1, jsIncludes_ws_append hT hne _ h2]

theorem mentionTag_no_ws : ∀ c ∈ mentionTag, isWS c = false := by decide

theorem mentionTag_ne_nil : mentionTag ≠ [] := by decide

/-! ## Dispatcher structure lemmas -/

theorem handleRun_head (ext : ExtCalls) (m : ChatMsg) (t2 : List Char)
    (s : StoreState) :
    (handleRun ext m t2 s).2.2.head?
      = some (Effect.askAssistant m.chatId m.fromId t2) := by
  unfold handleRun
  rcases runAssistant ext m.chatId m.fromId t2 s with ⟨r, s', fx⟩
  cases r with
  | ok reply =>
    by_cases h1 : ext.sendReplyOk = true <;>
      by_cases h2 : ext.sendFallbackOk = true <;>
      simp [h1, h2]
  | error e =>
    by_cases h2 : ext.sendFallbackOk = true <;> simp [h2]

theorem getOrCreateThread_no_send (ext : ExtCalls) (c : Int) (u : Option Int)
    (s : StoreState) :
    ((getOrCreateThread ext c u s).2.2).filter isTgSend = [] := by
  unfold getOrCreateThread
  cases truthyLookup s.threads (getThreadKey c u) with
  | some tid => rfl
  | none =>
    cases ext.createThread with
    | error e => rfl
    | ok tid => by_cases h : ext.saveOk = true <;> simp [h, isTgSend, List.filter]

theorem runAssistant_no_send (ext : ExtCalls) (c : Int) (u : Option Int)
    (t : List Char) (s : StoreState) :
    ((runAssistant ext c u t s).2.2).filter isTgSend = [] := by
  unfold runAssistant
  rcases hg : getOrCreateThread ext c u s with ⟨r, s', fx⟩
  have hfx : fx.filter isTgSend = [] := by
    have h := getOrCreateThread_no_send ext c u s
    rw [hg] at h
    exact h
  cases r with
  | error e => simpa using hfx
  | ok tid =>
    by_cases hm : ext.msgCreateOk = true
    · simp only [hm, if_true]
      cases ext.runPoll with
      | error e => simp [List.filter_append, hfx, isTgSend, List.filter]
      | ok status =>
        by_cases hs : status = completedStr
        · simp only [hs, if_true]
          cases ext.listMsgs with
          | error e => simp [List.filter_append, hfx, isTgSend, List.filter]
          | ok msgs => simp [List.filter_append, hfx, isTgSend, List.filter]
        · simp [hs, List.filter_append, hfx, isTgSend, List.filter]
    · simp [hm, List.filter_append, hfx, isTgSend, List.filter]

theorem runAssistant_state (ext : ExtCalls) (c : Int) (u : Option Int)
    (t : List Char) (s : StoreState) :
    (runAssistant ext c u t s).2.1 = (getOrCreateThread ext c u s).2.1 := by
  unfold runAssistant
  rcases getOrCreateThread ext c u s with ⟨r, s', fx⟩
  cases r with
  | error e => rfl
  | ok tid =>
    by_cases hm : ext.msgCreateOk = true
    · simp only [hm, if_true]
      cases ext.runPoll with
      | error e => rfl
      | ok status =>
        by_cases hs : status = completedStr
        · simp only [hs, if_true]
          cases ext.listMsgs with
          | error e => rfl
          | ok msgs => rfl
        · simp [hs]
    · simp [hm]

theorem handleRun_state (ext : ExtCalls) (m : ChatMsg) (t2 : List Char)
    (s : StoreState) :
    (handleRun ext m t2 s).2.1 = (getOrCreateThread ext m.chatId m.fromId s).2.1 := by
  unfold handleRun
  rcases hr : runAssistant ext m.chatId m.fromId t2 s with ⟨r, s', fx⟩
  have hst : s' = (getOrCreateThread ext m.chatId m.fromId s).2.1 := by
    have h := runAssistant_state ext m.chatId m.fromId t2 s
    rw [hr] at h
    exact h
  cases r with
  | ok reply =>
    by_cases h1 : ext.sendReplyOk = true <;>
      by_cases h2 : ext.sendFallbackOk = true <;>
      simp [h1, h2, hst]
  | error e =>
    by_cases h2 : ext.sendFallbackOk = true <;> simp [h2, hst]

theorem handleWebhook_dispatches (ext : ExtCalls) (m : ChatMsg) (raw : List Char)
    (s : StoreState) (ht : m.text = some raw) (hraw : raw ≠ [])
    (hcls : m.chatType = privateStr ∨ jsIncludes mentionTag raw = true) :
    handleWebhook ext (some m) s = handleRun ext m (normText m.chatType raw) s := by
  simp only [handleWebhook, ht]
  rw [if_neg hraw]
  unfold handleText
  rw [if_neg]
  rintro ⟨hg, hinc⟩
  rcases hcls with h | h
  · exact hg h
  · rw [includes_trim mentionTag mentionTag_no_ws mentionTag_ne_nil raw, h] at hinc
    exact absurd hinc (by decide)

theorem getOrCreateThread_fresh_eq (ext : ExtCalls) (c : Int) (u : Option Int)
    (s : StoreState) (tid : List Char)
    (hfresh : lookupKey s.threads (getThreadKey c u) = none)
    (hcreate : ext.createThread = Except.ok tid)
    (hsave : ext.saveOk = true) :
    getOrCreateThread ext c u s =
      (Except.ok tid,
        ⟨s.threads ++ [(getThreadKey c u, tid)],
         s.threads ++ [(getThreadKey c u, tid)]⟩,
        [Effect.aiCreateThread,
         Effect.fsWrite (s.threads ++ [(getThreadKey c u, tid)])]) := by
  have htr : truthyLookup s.threads (getThreadKey c u) = none := by
    simp [truthyLookup, hfresh]
  unfold getOrCreateThread
  rw [htr, hcreate]
  simp [hsave, setKey_fresh hfresh]

/-! ## C2: adapter failure is converted to the fallback message -/

/-- C2: for any validated and classified text message, if the assistant
adapter fails with any error (in particular a run whose terminal status is
not "completed") and the fallback transport send itself succeeds, the
dispatcher performs exactly one chat-transport send, whose text is exactly
"Error processing your request." (not a threaded reply), and the webhook
delivery is still acknowledged with success. -/
theorem handleWebhook_adapter_failure (ext : ExtCalls) (m : ChatMsg)
    (raw : List Char) (s : StoreState) (e : RunErr)
    (ht : m.text = some raw) (hraw : raw ≠ [])
    (hcls : m.chatType = privateStr ∨ jsIncludes mentionTag raw = true)
    (hrun : (runAssistant ext m.chatId m.fromId (normText m.chatType raw) s).1
        = Except.error e)
    (hsend : ext.sendFallbackOk = true) :
    (handleWebhook ext (some m) s).1 = Outcome.ok200
    ∧ ((handleWebhook ext (some m) s).2.2).filter isTgSend
        = [Effect.tgSend m.chatId errorText none] := by
  rw [handleWebhook_dispatches ext m raw s ht hraw hcls]
  unfold handleRun
  rcases hr : runAssistant ext m.chatId m.fromId (normText m.chatType raw) s
    with ⟨r, s', fx⟩
  have hfx : fx.filter isTgSend = [] := by
    have h := runAssistant_no_send ext m.chatId m.fromId (normText m.chatType raw) s
    rw [hr] at h
    exact h
  rw [hr] at hrun
  simp only at hrun
  cases r with
  | ok reply => exact absurd hrun (by simp)
  | error e2 =>
    constructor <;> simp [hsend, List.filter_append, hfx, isTgSend, List.filter]

/-- C2 witness: a private "hello" under an environment whose run ends with
status "failed". -/
theorem handleWebhook_adapter_failure_witness :
    (handleWebhook extRunFail (some mPriv) emptyStore).1 = Outcome.ok200
    ∧ ((handleWebhook extRunFail (some mPriv) emptyStore).2.2).filter isTgSend
        = [Effect.tgSend mPriv.chatId errorText none] :=
  handleWebhook_adapter_failure extRunFail mPriv ("hello".data) emptyStore
    (RunErr.runFailed ("failed".data)) rfl (by decide) (Or.inl rfl) rfl rfl

/-! ## C3: acknowledgment of every delivery -/

/-- C3 (amended): every inbound delivery is acknowledged with HTTP 200 —
whatever the internal outcome — provided the fallback error send itself
does not fail; the original claim's "including a failure of the fallback
error send" case is refuted by `handleWebhook_fallback_crash_cex`. -/
theorem handleWebhook_always_acks (ext : ExtCalls) (upd : Option ChatMsg)
    (s : StoreState) (hsend : ext.sendFallbackOk = true) :
    (handleWebhook ext upd s).1 = Outcome.ok200 := by
  cases upd with
  | none => rfl
  | some m =>
    cases ht : m.text with
    | none => simp [handleWebhook, ht]
    | some raw =>
      simp only [handleWebhook, ht]
      by_cases hraw : raw = []
      · rw [if_pos hraw]
      · rw [if_neg hraw]
        unfold handleText
        split
        · rfl
        · unfold handleRun
          rcases runAssistant ext m.chatId m.fromId (normText m.chatType raw) s
            with ⟨r, s', fx⟩
          cases r with
          | ok reply =>
            by_cases h1 : ext.sendReplyOk = true <;> simp [h1, hsend]
          | error e => simp [hsend]

/-- C3 witness: a fully successful delivery is acknowledged. -/
theorem handleWebhook_always_acks_witness :
    (handleWebhook extOK (some mGroupRefund) emptyStore).1 = Outcome.ok200 :=
  handleWebhook_always_acks extOK (some mGroupRefund) emptyStore rfl

/-- C3 counterexample: when the adapter fails and the fallback error send
itself rejects, the handler's promise rejects before `res.sendStatus(200)`
is reached, so the delivery is never acknowledged — the claim's "responds
HTTP 200 ... including a failure of the fallback error send itself" is
false on this input. -/
theorem handleWebhook_fallback_crash_cex :
    (handleWebhook extCrash (some mPriv) emptyStore).1 = Outcome.crash
    ∧ (handleWebhook extCrash (some mPriv) emptyStore).1 ≠ Outcome.ok200 := by
  constructor
  · decide
  · decide

/-! ## C4: mention stripping in group chats -/

/-- C4: in a non-private chat whose text contains the mention tag, the text
forwarded to the assistant adapter is the original text with the first
occurrence of the tag removed and surrounding whitespace trimmed. -/
theorem handleWebhook_group_mention_normalizes (ext : ExtCalls) (m : ChatMsg)
    (raw : List Char) (s : StoreState)
    (ht : m.text = some raw) (hraw : raw ≠ [])
    (hgrp : m.chatType ≠ privateStr)
    (htag : jsIncludes mentionTag raw = true) :
    (handleWebhook ext (some m) s).2.2.head?
      = some (Effect.askAssistant m.chatId m.fromId
          (jsTrim (jsReplace mentionTag raw))) := by
  have hnorm : normText m.chatType raw = jsTrim (jsReplace mentionTag raw) := by
    unfold normText
    rw [if_neg hgrp]
    exact trim_replace_trim mentionTag mentionTag_no_ws mentionTag_ne_nil raw
  rw [handleWebhook_dispatches ext m raw s ht hraw (Or.inr htag), hnorm,
    handleRun_head]

/-- C4 witness: the spec's example input forwards exactly
"what is the refund policy?". -/
theorem handleWebhook_group_mention_normalizes_witness :
    (handleWebhook extOK (some mGroupRefund) emptyStore).2.2.head?
      = some (Effect.askAssistant mGroupRefund.chatId mGroupRefund.fromId
          (jsTrim (jsReplace mentionTag
            ("@ScopeShield_Bot  what is the refund policy?".data))))
    ∧ jsTrim (jsReplace mentionTag
        ("@ScopeShield_Bot  what is the refund policy?".data))
      = "what is the refund policy?".data :=
  ⟨handleWebhook_group_mention_normalizes extOK mGroupRefund
      ("@ScopeShield_Bot  what is the refund policy?".data) emptyStore
      rfl (by decide) (by decide) (by decide),
    by decide⟩

/-! ## C5: private chats -/

/-- C5 (amended): in a private chat the forwarded text is the original text
with surrounding whitespace trimmed and no other alteration (in particular
no tag stripping); it is forwarded verbatim only when the original carries
no surrounding whitespace. The original claim's "exactly the original
message text, character for character" is refuted by
`handleWebhook_private_not_verbatim_cex`. -/
theorem handleWebhook_private_trims (ext : ExtCalls) (m : ChatMsg)
    (raw : List Char) (s : StoreState)
    (ht : m.text = some raw) (hraw : raw ≠ [])
    (hpriv : m.chatType = privateStr) :
    (handleWebhook ext (some m) s).2.2.head?
      = some (Effect.askAssistant m.chatId m.fromId (jsTrim raw)) := by
  have hnorm : normText m.chatType raw = jsTrim raw := by
    unfold normText
    rw [if_pos hpriv]
  rw [handleWebhook_dispatches ext m raw s ht hraw (Or.inl hpriv), hnorm,
    handleRun_head]

/-- C5 witness: a private "hello" is forwarded as its trim. -/
theorem handleWebhook_private_trims_witness :
    (handleWebhook extOK (some mPriv) emptyStore).2.2.head?
      = some (Effect.askAssistant mPriv.chatId mPriv.fromId
          (jsTrim ("hello".data))) :=
  handleWebhook_private_trims extOK mPriv ("hello".data) emptyStore
    rfl (by decide) rfl

/-- C5 counterexample: the private message " hi" is forwarded as "hi", not
character for character as the claim states. -/
theorem handleWebhook_private_not_verbatim_cex :
    (handleWebhook extOK (some mPrivPad) emptyStore).2.2.head?
      = some (Effect.askAssistant 5 (some 7) ("hi".data))
    ∧ ("hi".data : List Char) ≠ " hi".data := by
  constructor
  · decide
  · decide

/-! ## C6: silent ignore in group chats without the mention -/

/-- C6: in a non-private chat, a non-empty text lacking the mention tag is
acknowledged and nothing else happens: no chat-transport send, no assistant
call, no store mutation and no file write (the effect list is empty and the
state is returned unchanged). -/
theorem handleWebhook_group_no_mention_silent (ext : ExtCalls) (m : ChatMsg)
    (raw : List Char) (s : StoreState)
    (ht : m.text = some raw) (hraw : raw ≠ [])
    (hgrp : m.chatType ≠ privateStr)
    (hno : jsIncludes mentionTag raw = false) :
    handleWebhook ext (some m) s = (Outcome.ok200, s, []) := by
  simp only [handleWebhook, ht]
  rw [if_neg hraw]
  unfold handleText
  rw [if_pos]
  exact ⟨hgrp,
    by rw [includes_trim mentionTag mentionTag_no_ws mentionTag_ne_nil raw, hno]⟩

/-- C6 witness: "good morning all" in a group chat is silently ignored. -/
theorem handleWebhook_group_no_mention_silent_witness :
    handleWebhook extOK (some mGroupNoTag) emptyStore
      = (Outcome.ok200, emptyStore, []) :=
  handleWebhook_group_no_mention_silent extOK mGroupNoTag
    ("good morning all".data) emptyStore rfl (by decide) (by decide) (by decide)

/-! ## C7: the adapter's reply extraction -/

/-- C7 (amended): `extractReply` always returns non-empty text; it returns
the literal "No response generated." when the fetched list has no
assistant-authored entry, and also when the most recent assistant-authored
entry's primary text payload is absent or empty (this last case refutes
the original claim's "if and only if", see
`extractReply_payload_fallback_cex`); when that payload is a non-empty
string, it is returned as is. -/
theorem extractReply_spec (msgs : List AMsg) :
    extractReply msgs ≠ []
    ∧ (msgs.find? (fun m => m.role == assistantStr) = none →
        extractReply msgs = noResponseText)
    ∧ (∀ m, msgs.find? (fun m => m.role == assistantStr) = some m →
        ∀ v, primaryPayload m = some v → v ≠ [] → extractReply msgs = v)
    ∧ (∀ m, msgs.find? (fun m => m.role == assistantStr) = some m →
        (primaryPayload m = none ∨ primaryPayload m = some []) →
        extractReply msgs = noResponseText) := by
  cases hf : msgs.find? (fun m => m.role == assistantStr) with
  | none =>
    have he : extractReply msgs = noResponseText := by
      unfold extractReply
      rw [hf]
    refine ⟨by rw [he]; decide, fun _ => he, ?_, ?_⟩
    · intro m hm
      exact Option.noConfusion hm
    · intro m hm
      exact Option.noConfusion hm
  | some m0 =>
    have he : extractReply msgs
        = (match primaryPayload m0 with
           | none => noResponseText
           | some v => if v = [] then noResponseText else v) := by
      unfold extractReply primaryPayload
      rw [hf]
      rcases m0 with ⟨role, content⟩
      cases content with
      | none => rfl
      | some items =>
        cases items with
        | nil => rfl
        | cons it rest =>
          rcases it with ⟨txt⟩
          cases txt with
          | none => rfl
          | some tv => rfl
    refine ⟨?_, ?_, ?_, ?_⟩
    · rw [he]
      cases hp : primaryPayload m0 with
      | none => decide
      | some v =>
        show (if v = [] then noResponseText else v) ≠ []
        by_cases hv : v = []
        · rw [if_pos hv]
          decide
        · rw [if_neg hv]
          exact hv
    · intro hnone
      exact Option.noConfusion hnone
    · intro m hm v hpv hv
      injection hm with hm
      subst hm
      rw [he, hpv]
      show (if v = [] then noResponseText else v) = v
      rw [if_neg hv]
    · intro m hm hp
      injection hm with hm
      subst hm
      rcases hp with hp | hp <;> rw [he, hp]
      show (if ([] : List Char) = [] then noResponseText else []) = noResponseText
      rw [if_pos rfl]

/-- C7 witness: a well-formed assistant message yields its payload, and the
result is non-empty. -/
theorem extractReply_spec_witness :
    extractReply [msgHello] = "hello there".data
    ∧ extractReply [msgHello] ≠ [] :=
  ⟨(extractReply_spec [msgHello]).2.2.1 msgHello (by decide)
      ("hello there".data) rfl (by decide),
    (extractReply_spec [msgHello]).1⟩

/-- C7 counterexample: a list whose only entry is assistant-authored but
has an empty content array still yields "No response generated.", so the
fallback is not returned only when no assistant-authored entry exists. -/
theorem extractReply_payload_fallback_cex :
    extractReply [msgNoPayload] = noResponseText
    ∧ [msgNoPayload].find? (fun m => m.role == assistantStr) = some msgNoPayload := by
  constructor
  · decide
  · decide

/-! ## C9: the store only ever grows by fresh insertions -/

theorem handleWebhook_state (ext : ExtCalls) (upd : Option ChatMsg)
    (s : StoreState) :
    (handleWebhook ext upd s).2.1 = s
    ∨ ∃ c u, (handleWebhook ext upd s).2.1 = (getOrCreateThread ext c u s).2.1 := by
  cases upd with
  | none => left; rfl
  | some m =>
    cases ht : m.text with
    | none => left; simp [handleWebhook, ht]
    | some raw =>
      by_cases hraw : raw = []
      · left
        simp [handleWebhook, ht, hraw]
      · simp only [handleWebhook, ht]
        rw [if_neg hraw]
        unfold handleText
        split
        · left; rfl
        · right
          exact ⟨m.chatId, m.fromId, handleRun_state ext m (normText m.chatType raw) s⟩

theorem getOrCreateThread_state_cases (ext : ExtCalls) (c : Int)
    (u : Option Int) (s : StoreState)
    (hvals : ∀ k v, lookupKey s.threads k = some v → v ≠ []) :
    (getOrCreateThread ext c u s).2.1.threads = s.threads
    ∨ ∃ tid, ext.createThread = Except.ok tid
        ∧ lookupKey s.threads (getThreadKey c u) = none
        ∧ (getOrCreateThread ext c u s).2.1.threads
            = s.threads ++ [(getThreadKey c u, tid)] := by
  unfold getOrCreateThread
  cases htl : truthyLookup s.threads (getThreadKey c u) with
  | some tid => left; rfl
  | none =>
    have hlk : lookupKey s.threads (getThreadKey c u) = none := by
      unfold truthyLookup at htl
      cases hl : lookupKey s.threads (getThreadKey c u) with
      | none => rfl
      | some v =>
        exfalso
        rw [hl] at htl
        by_cases hv : v = []
        · exact hvals _ v hl hv
        · simp [hv] at htl
    cases hc : ext.createThread with
    | error e => left; rfl
    | ok tid =>
      right
      refine ⟨tid, rfl, hlk, ?_⟩
      by_cases hs : ext.saveOk = true <;> simp [hs, setKey_fresh hlk]

/-- C9: handling any delivery in a reachable store state (all stored
context ids non-empty, ids issued by the backend non-empty) never
overwrites or deletes an existing entry: every previous binding is still
present afterwards, and the map is either unchanged or extended by exactly
one binding for a key that was previously absent. -/
theorem handleWebhook_store_monotone (ext : ExtCalls) (upd : Option ChatMsg)
    (s : StoreState)
    (hvals : ∀ k v, lookupKey s.threads k = some v → v ≠ [])
    (hnew : ∀ tid, ext.createThread = Except.ok tid → tid ≠ []) :
    (∀ k v, lookupKey s.threads k = some v →
      lookupKey (handleWebhook ext upd s).2.1.threads k = some v)
    ∧ ((handleWebhook ext upd s).2.1.threads = s.threads
       ∨ ∃ k tid, lookupKey s.threads k = none ∧ tid ≠ []
          ∧ (handleWebhook ext upd s).2.1.threads = s.threads ++ [(k, tid)]) := by
  have hcases : (handleWebhook ext upd s).2.1.threads = s.threads
      ∨ ∃ k tid, lookupKey s.threads k = none ∧ tid ≠ []
         ∧ (handleWebhook ext upd s).2.1.threads = s.threads ++ [(k, tid)] := by
    rcases handleWebhook_state ext upd s with h | ⟨c, u, h⟩
    · left
      rw [h]
    · rcases getOrCreateThread_state_cases ext c u s hvals with h2 | ⟨tid, hcr, hlk, h2⟩
      · left
        rw [h, h2]
      · right
        exact ⟨getThreadKey c u, tid, hlk, hnew tid hcr, by rw [h, h2]⟩
  refine ⟨?_, hcases⟩
  intro k v hv
  rcases hcases with h | ⟨k', tid, _, _, h⟩
  · rw [h]
    exact hv
  · rw [h]
    exact lookupKey_append_of_some hv _

/-- C9 witness: the pre-existing binding survives a delivery that creates a
new one. -/
theorem handleWebhook_store_monotone_witness :
    lookupKey (handleWebhook extOK (some mPriv) storePre).2.1.threads oldKey
      = some oldTid :=
  (handleWebhook_store_monotone extOK (some mPriv) storePre
    (by
      intro k v h
      simp only [storePre, lookupKey] at h
      split at h
      · injection h with h2
        rw [← h2]
        decide
      · simp [lookupKey] at h)
    (by
      intro tid h
      rw [show extOK.createThread = Except.ok thNew from rfl] at h
      injection h with h2
      rw [← h2]
      decide)).1 oldKey oldTid (by decide)

/-! ## C10: messages without a sender -/

/-- C10: a message whose `from` field is absent is not rejected: in a
private chat with valid text it is dispatched with an undefined sender id,
its thread key is the chat id followed by ":undefined", and (starting from
a state where that key is fresh and creation succeeds) the created context
is returned again by any later lookup for a sender-less message of the
same chat, so all such messages share one context. -/
theorem handleWebhook_missing_from (ext : ExtCalls) (m : ChatMsg)
    (raw tid : List Char) (s : StoreState)
    (hfrom : m.fromId = none) (ht : m.text = some raw) (hraw : raw ≠ [])
    (hpriv : m.chatType = privateStr)
    (hfresh : lookupKey s.threads (getThreadKey m.chatId none) = none)
    (hcr : ext.createThread = Except.ok tid) (htid : tid ≠ [])
    (hsave : ext.saveOk = true) :
    getThreadKey m.chatId none = intDec m.chatId ++ ':' :: undefinedStr
    ∧ (handleWebhook ext (some m) s).2.2.head?
        = some (Effect.askAssistant m.chatId none (jsTrim raw))
    ∧ (handleWebhook ext (some m) s).2.1.threads
        = s.threads ++ [(getThreadKey m.chatId none, tid)]
    ∧ ∀ ext2, (getOrCreateThread ext2 m.chatId none
        (handleWebhook ext (some m) s).2.1).1 = Except.ok tid := by
  have hred : handleWebhook ext (some m) s
      = handleRun ext m (normText m.chatType raw) s :=
    handleWebhook_dispatches ext m raw s ht hraw (Or.inl hpriv)
  have hnorm : normText m.chatType raw = jsTrim raw := by
    unfold normText
    rw [if_pos hpriv]
  have hgoc : getOrCreateThread ext m.chatId m.fromId s =
      (Except.ok tid,
        ⟨s.threads ++ [(getThreadKey m.chatId none, tid)],
         s.threads ++ [(getThreadKey m.chatId none, tid)]⟩,
        [Effect.aiCreateThread,
         Effect.fsWrite (s.threads ++ [(getThreadKey m.chatId none, tid)])]) := by
    rw [hfrom]
    exact getOrCreateThread_fresh_eq ext m.chatId none s tid hfresh hcr hsave
  have hstate : (handleWebhook ext (some m) s).2.1
      = ⟨s.threads ++ [(getThreadKey m.chatId none, tid)],
         s.threads ++ [(getThreadKey m.chatId none, tid)]⟩ := by
    rw [hred, handleRun_state, hgoc]
  refine ⟨rfl, ?_, ?_, ?_⟩
  · rw [hred, hnorm, handleRun_head, hfrom]
  · rw [hstate]
  · intro ext2
    rw [hstate]
    unfold getOrCreateThread
    rw [show truthyLookup (s.threads ++ [(getThreadKey m.chatId none, tid)])
        (getThreadKey m.chatId none) = some tid from by
      simp [truthyLookup, lookupKey_append_fresh hfresh, htid]]

/-- C10 witness: a sender-less private message creates and reuses the
context stored under "5:undefined". -/
theorem handleWebhook_missing_from_witness :
    getThreadKey mNoFrom.chatId none = intDec mNoFrom.chatId ++ ':' :: undefinedStr
    ∧ (handleWebhook extOK (some mNoFrom) emptyStore).2.2.head?
        = some (Effect.askAssistant mNoFrom.chatId none (jsTrim ("hola".data)))
    ∧ (handleWebhook extOK (some mNoFrom) emptyStore).2.1.threads
        = emptyStore.threads ++ [(getThreadKey mNoFrom.chatId none, thNew)]
    ∧ (getOrCreateThread extRunFail mNoFrom.chatId none
        (handleWebhook extOK (some mNoFrom) emptyStore).2.1).1 = Except.ok thNew := by
  have h := handleWebhook_missing_from extOK mNoFrom ("hola".data) thNew emptyStore
    rfl rfl (by decide) rfl rfl rfl (by decide) rfl
  exact ⟨h.1, h.2.1, h.2.2.1, h.2.2.2 extRunFail⟩
